import Mathlib

/-!
Verification of the htvg compilation pipeline (JSON element trees to SVG).

The Rust source is shallowly embedded: Rust `String`/`&str` values are
modelled as `List Char`, `f32` values as exact rationals `ℚ`, and `u8`/`u16`
integers as `ℕ` with explicit bounds.  External collaborators (the Taffy
layout solver, the Parley shaping engine, serde_json) are modelled as
function parameters: the embedded code is exactly the code of this
repository, with each collaborator's reply supplied as an argument.
-/

namespace Htvg

/-! ## Character and string utilities

Models of the Rust standard-library string operations used by the
repository (`trim`, `trim_start_matches`, `trim_end_matches`, `split`,
`split_whitespace`, integer/decimal formatting and parsing), over
`List Char`. -/

/-- ASCII whitespace recognizer used to model Rust `char::is_whitespace`
for the character sets that can occur in the documents considered here. -/
def isWsChar (c : Char) : Bool :=
  c = ' ' || c = '\t' || c = '\n' || c = '\r'

/-- Model of `str::trim`: drop whitespace from both ends. -/
def trimChars (s : List Char) : List Char :=
  ((s.dropWhile isWsChar).reverse.dropWhile isWsChar).reverse

/-- Model of `str::trim_start_matches(pat)` for a string pattern: repeatedly
strip the pattern from the front while it is a prefix. -/
def trimStartMatchesStr (p s : List Char) : List Char :=
  if hp : p.isEmpty then s
  else if hpre : p.isPrefixOf s then
    trimStartMatchesStr p (s.drop p.length)
  else s
termination_by s.length
decreasing_by
  simp only [List.isEmpty_iff] at hp
  have h1 : p.length ≤ s.length := (List.isPrefixOf_iff_prefix.mp hpre).length_le
  have h2 : 0 < p.length := List.length_pos.mpr hp
  simp only [List.length_drop]
  omega

/-- Model of `str::trim_end_matches(pat)` for a single-character pattern:
drop all trailing occurrences of the character. -/
def trimEndMatchesChar (c : Char) (s : List Char) : List Char :=
  (s.reverse.dropWhile (· = c)).reverse

/-- Model of `str::split(',')`: split at every comma, keeping empty pieces
(`split` on an empty string yields one empty piece, matching Rust). -/
def splitOnComma : List Char → List (List Char)
  | [] => [[]]
  | x :: xs =>
    if x = ',' then [] :: splitOnComma xs
    else
      match splitOnComma xs with
      | [] => [[x]]
      | r :: rs => (x :: r) :: rs

/-- Model of `str::split_whitespace`: maximal runs of non-whitespace
characters, with empty runs discarded. -/
def splitWhitespaceChars : List Char → List (List Char)
  | [] => []
  | c :: cs =>
    if isWsChar c then splitWhitespaceChars cs
    else
      match splitWhitespaceChars cs with
      | [] => [[c]]
      | r :: rs =>
        match cs with
        | [] => [[c]]
        | c' :: _ => if isWsChar c' then [c] :: r :: rs else (c :: r) :: rs

/-- Decimal digit character for a digit value. -/
def digitChar (d : Nat) : Char := Char.ofNat (48 + d)

/-- Digit recognizer. -/
def isDigitCh (c : Char) : Bool := '0' ≤ c && c ≤ '9'

/-- Fuel-driven helper for decimal formatting (most significant digit
first). The fuel is an upper bound on the number of digits. -/
def natReprAux : Nat → Nat → List Char
  | 0, _ => []
  | fuel + 1, n =>
    if n < 10 then [digitChar n]
    else natReprAux fuel (n / 10) ++ [digitChar (n % 10)]

/-- Model of Rust `format!` with `{}` on an unsigned integer. -/
def natRepr (n : Nat) : List Char := natReprAux (n + 1) n

/-- Numeric value of a list of decimal digit characters (most significant
first); the empty list denotes 0. -/
def digitsToNat (s : List Char) : Nat :=
  s.foldl (fun acc c => 10 * acc + (c.toNat - 48)) 0

/-- Parse a non-empty all-digit string as a natural number, rejecting
anything else (no sign handling is needed by the inputs considered). -/
def parseNatDigits (s : List Char) : Option Nat :=
  if s.isEmpty then none
  else if s.all isDigitCh then some (digitsToNat s) else none

/-- Model of `str::parse::<u8>()`: decimal digits, value at most 255. -/
def parseU8 (s : List Char) : Option Nat :=
  match parseNatDigits s with
  | some n => if n ≤ 255 then some n else none
  | none => none

/-- Model of `u8::from_str_radix(s, 16)`: hexadecimal digits, value checked
against the `u8` range by the caller's slice length. -/
def parseHexNat (s : List Char) : Option Nat :=
  if s.isEmpty then none
  else if s.all (fun c => c.isDigit || ('a' ≤ c && c ≤ 'f') || ('A' ≤ c && c ≤ 'F')) then
    some (s.foldl (fun acc c =>
      16 * acc + (if c.isDigit then c.toNat - 48
                  else if 'a' ≤ c && c ≤ 'f' then c.toNat - 87
                  else c.toNat - 55)) 0)
  else none

/-- Model of `str::parse::<f32>()` restricted to plain decimal notation
(optional sign, integer digits, optional fractional part).  The exponent,
`inf` and `nan` forms of the Rust float grammar never arise from the
documents considered and are modelled as parse failures.  The result is the
exactly-represented rational value. -/
def parseDecimalUnsigned (s : List Char) : Option ℚ :=
  let intDigits := s.takeWhile isDigitCh
  let rest := s.dropWhile isDigitCh
  match rest with
  | [] => if intDigits.isEmpty then none else some (digitsToNat intDigits : ℚ)
  | '.' :: fracDigits =>
    if fracDigits.all isDigitCh && !(intDigits.isEmpty && fracDigits.isEmpty) then
      some ((digitsToNat intDigits : ℚ) +
        (digitsToNat fracDigits : ℚ) / ((10 : ℚ) ^ fracDigits.length))
    else none
  | _ => none

/-- Signed decimal parse (see `parseDecimalUnsigned`). -/
def parseDecimalChars (s : List Char) : Option ℚ :=
  match s with
  | '-' :: rest => (parseDecimalUnsigned rest).map Neg.neg
  | '+' :: rest => parseDecimalUnsigned rest
  | _ => parseDecimalUnsigned s

/-- Left-zero-padded fixed-width decimal digits (width `p`) of `m`. -/
def padDigits : Nat → Nat → List Char
  | 0, _ => []
  | p + 1, m => padDigits p (m / 10) ++ [digitChar (m % 10)]

/-! ## Colors (element.rs)

`Color` is RGBA8; channels are `ℕ` values in `[0, 256)` (`u8`). -/

/-- RGBA8 color (element.rs `Color`). -/
structure Color where
  r : Nat
  g : Nat
  b : Nat
  a : Nat
deriving DecidableEq, Repr

/-- element.rs `Color::TRANSPARENT`. -/
def Color.transparent : Color := ⟨0, 0, 0, 0⟩

/-- element.rs `Color::BLACK`. -/
def Color.black : Color := ⟨0, 0, 0, 255⟩

/-- element.rs `Color::WHITE`. -/
def Color.white : Color := ⟨255, 255, 255, 255⟩

/-- Nearest 3-decimal approximation of `a / 255`, as the numerator over
1000.  This models the value printed by Rust `{:.3}` for the `f32`
quotient `a as f32 / 255.0`: `1000 a / 255` is never exactly halfway
between two integers (`2000 a = 255 (2 k + 1)` equates an even and an odd
number), and its distance to any rounding boundary exceeds the `f32`
representation error, so rounding the exact rational is faithful. -/
def alphaMilli (a : Nat) : Nat := (400 * a + 51) / 102

/-- Lowercase hexadecimal digit character. -/
def hexDigitChar (d : Nat) : Char :=
  if d < 10 then digitChar d else Char.ofNat (87 + d)

/-- Left-zero-padded fixed-width lowercase hex digits (Rust `{:02x}`). -/
def padHexDigits : Nat → Nat → List Char
  | 0, _ => []
  | p + 1, m => padHexDigits p (m / 16) ++ [hexDigitChar (m % 16)]

/-- Model of element.rs `Color::to_css`. -/
def Color.toCss (c : Color) : List Char :=
  if c.a = 255 then
    '#' :: (padHexDigits 2 c.r ++ padHexDigits 2 c.g ++ padHexDigits 2 c.b)
  else if c.a = 0 then
    "none".toList
  else
    ("rgba(".toList) ++ natRepr c.r ++ ',' :: natRepr c.g ++ ',' :: natRepr c.b ++
      ',' :: '0' :: '.' :: padDigits 3 (alphaMilli c.a) ++ [')']

/-- Model of the Rust saturating cast `(q) as u8` for an `f32` value:
truncate toward zero and clamp to `[0, 255]` (`ℕ`-floor already clamps
negative values to 0, and truncation agrees with floor on non-negatives). -/
def toU8Sat (q : ℚ) : Nat := min 255 ⌊q⌋₊

/-- Model of the element.rs hex branch of `Color::parse` (input without
the leading `#`). -/
def parseHexColor (hex : List Char) : Option Color :=
  if hex.length = 3 then
    match parseHexNat (hex.take 1), parseHexNat ((hex.drop 1).take 1),
        parseHexNat ((hex.drop 2).take 1) with
    | some r, some g, some b => some ⟨r * 17, g * 17, b * 17, 255⟩
    | _, _, _ => none
  else if hex.length = 6 then
    match parseHexNat (hex.take 2), parseHexNat ((hex.drop 2).take 2),
        parseHexNat ((hex.drop 4).take 2) with
    | some r, some g, some b => some ⟨r, g, b, 255⟩
    | _, _, _ => none
  else if hex.length = 8 then
    match parseHexNat (hex.take 2), parseHexNat ((hex.drop 2).take 2),
        parseHexNat ((hex.drop 4).take 2), parseHexNat ((hex.drop 6).take 2) with
    | some r, some g, some b, some a => some ⟨r, g, b, a⟩
    | _, _, _, _ => none
  else none

/-- Model of the element.rs `rgb(...)`/`rgba(...)` channel extraction of
`Color::parse`: called when at least 3 comma-separated parts are present;
any channel parse failure fails the whole parse (Rust `?`). -/
def parseRgbParts (parts : List (List Char)) : Option Color :=
  match parseU8 (parts.getD 0 []), parseU8 (parts.getD 1 []),
      parseU8 (parts.getD 2 []) with
  | some r, some g, some b =>
    if 4 ≤ parts.length then
      match parseDecimalChars (parts.getD 3 []) with
      | some f => some ⟨r, g, b, toU8Sat (f * 255)⟩
      | none => none
    else some ⟨r, g, b, 255⟩
  | _, _, _ => none

/-- Model of the element.rs named-color fallback of `Color::parse`. -/
def namedColor (s : List Char) : Option Color :=
  let l := s.map Char.toLower
  if l = "transparent".toList then some Color.transparent
  else if l = "black".toList then some Color.black
  else if l = "white".toList then some Color.white
  else if l = "red".toList then some ⟨255, 0, 0, 255⟩
  else if l = "green".toList then some ⟨0, 128, 0, 255⟩
  else if l = "blue".toList then some ⟨0, 0, 255, 255⟩
  else none

/-- Model of `str::starts_with` for a single-character pattern. -/
def startsWithChar (c : Char) (s : List Char) : Bool :=
  match s with
  | [] => false
  | x :: _ => x = c

/-- Model of element.rs `Color::parse`. -/
def Color.parse (s0 : List Char) : Option Color :=
  let s := trimChars s0
  if startsWithChar '#' s then parseHexColor (s.drop 1)
  else
    if ("rgb".toList).isPrefixOf s then
      let inner := trimEndMatchesChar ')'
        ((trimStartMatchesStr ("rgb".toList)
          (trimStartMatchesStr ("rgba".toList) s)).dropWhile (· = '('))
      let parts := (splitOnComma inner).map trimChars
      if 3 ≤ parts.length then parseRgbParts parts
      else namedColor s
    else namedColor s

/-! ## Dimensions, spacing and border radius (element.rs) -/

/-- element.rs `Dimension`: pixels or a percentage string. -/
inductive Dimension where
  | px (v : ℚ)
  | percent (s : List Char)
deriving DecidableEq, Repr

/-- Model of element.rs `Dimension::to_px`. -/
def Dimension.toPx (d : Dimension) (containerSize : ℚ) : ℚ :=
  match d with
  | .px v => v
  | .percent s =>
    let pct := (parseDecimalChars (trimEndMatchesChar '%' s)).getD 0
    containerSize * pct / 100

/-- element.rs `Spacing`: uniform scalar or space-separated shorthand. -/
inductive Spacing where
  | uniform (v : ℚ)
  | multi (s : List Char)
deriving DecidableEq, Repr

/-- The numeric tokens of a shorthand string: whitespace-separated pieces
that parse as numbers, others filtered out (Rust
`split_whitespace().filter_map(|p| p.parse().ok())`). -/
def parseFloatTokens (s : List Char) : List ℚ :=
  (splitWhitespaceChars s).filterMap parseDecimalChars

/-- Model of element.rs `Spacing::to_edges`, producing
`[top, right, bottom, left]`. -/
def Spacing.toEdges : Spacing → List ℚ
  | .uniform v => [v, v, v, v]
  | .multi s =>
    match parseFloatTokens s with
    | [a] => [a, a, a, a]
    | [v, h] => [v, h, v, h]
    | [t, h, b] => [t, h, b, h]
    | [t, r, b, l] => [t, r, b, l]
    | _ => [0, 0, 0, 0]

/-- element.rs `BorderRadius`: uniform scalar or shorthand string. -/
inductive BorderRadius where
  | uniform (v : ℚ)
  | multi (s : List Char)
deriving DecidableEq, Repr

/-- Model of element.rs `BorderRadius::to_corners`, producing
`[top-left, top-right, bottom-right, bottom-left]`; note the missing
3-token case compared with `Spacing::to_edges`. -/
def BorderRadius.toCorners : BorderRadius → List ℚ
  | .uniform v => [v, v, v, v]
  | .multi s =>
    match parseFloatTokens s with
    | [a] => [a, a, a, a]
    | [a, b] => [a, b, a, b]
    | [a, b, c, d] => [a, b, c, d]
    | _ => [0, 0, 0, 0]

/-! ## Text measurement (crates/htvg-core/src/text.rs)

The Parley shaping engine is external; its `(width, height)` reply for the
measured text is passed as the `parley` argument.  All constants are the
source constants (`CHAR_WIDTH_RATIO = 0.55`, line-height multiplier 1.2). -/

/-- A width/height pair (`taffy::Size<f32>`). -/
structure MeasureSize where
  width : ℚ
  height : ℚ
deriving DecidableEq, Repr

/-- text.rs `CHAR_WIDTH_RATIO`. -/
def charWidthRatio : ℚ := 11 / 20

/-- Model of text.rs `estimate_text_width`: character count times font size
times `CHAR_WIDTH_RATIO`. -/
def estimateTextWidth (text : List Char) (fontSize : ℚ) : ℚ :=
  (text.length : ℚ) * fontSize * charWidthRatio

/-- Whether a candidate width exceeds the wrap limit.  `none` models the
`f32::MAX` no-limit sentinel of `word_wrap` (no finite candidate compares
greater). -/
def exceedsLimit (maxWidth : Option ℚ) (w : ℚ) : Bool :=
  match maxWidth with
  | some m => decide (m < w)
  | none => false

/-- The loop of text.rs `word_wrap`: fold the whitespace-split words,
appending to the current line unless the line is non-empty and the
candidate width `current + space + word` exceeds the limit.  After the
loop the non-empty current line is pushed, and an empty result becomes one
empty line. -/
def wordWrapGo (fontSize : ℚ) (maxWidth : Option ℚ) :
    List (List Char) → List (List Char) → List Char → ℚ → List (List Char)
  | [], lines, current, _ =>
    let lines := if current.isEmpty then lines else lines ++ [current]
    if lines.isEmpty then [[]] else lines
  | w :: ws, lines, current, currentWidth =>
    let wordWidth := estimateTextWidth w fontSize
    let spaceWidth := fontSize * charWidthRatio
    if !current.isEmpty && exceedsLimit maxWidth (currentWidth + spaceWidth + wordWidth) then
      wordWrapGo fontSize maxWidth ws (lines ++ [current]) w wordWidth
    else if current.isEmpty then
      wordWrapGo fontSize maxWidth ws lines w wordWidth
    else
      wordWrapGo fontSize maxWidth ws lines (current ++ ' ' :: w)
        (currentWidth + spaceWidth + wordWidth)

/-- Model of text.rs `word_wrap`. -/
def wordWrap (text : List Char) (fontSize : ℚ) (maxWidth : Option ℚ) :
    List (List Char) :=
  wordWrapGo fontSize maxWidth (splitWhitespaceChars text) [] [] 0

/-- Space-join of a list of words: the shape of the lines `word_wrap`
assembles (words separated by single spaces, never split). -/
def spaceJoin : List (List Char) → List Char
  | [] => []
  | [w] => w
  | w :: ws => w ++ ' ' :: spaceJoin ws

/-- Model of text.rs `fallback_measure`. -/
def fallbackMeasure (text : List Char) (fontSize lineHeight : ℚ)
    (maxWidth : Option ℚ) : MeasureSize :=
  let wrapped := wordWrap text fontSize maxWidth
  let rowHeight := fontSize * lineHeight
  let w := (wrapped.map (fun l => estimateTextWidth l fontSize)).foldl max 0
  let w := match maxWidth with
    | some mw => min w mw
    | none => w
  ⟨w, rowHeight * (wrapped.length : ℚ)⟩

/-- Model of `TextLayoutEngine::measure` (crates/htvg-core/src/text.rs):
empty text short-circuits to height `font_size * 1.2`; a zero-area Parley
reply triggers `fallback_measure`; otherwise the Parley size is returned.
The Parley measurement of the non-empty text is the `parley` argument. -/
def measure (parley : MeasureSize) (text : List Char) (fontSize : ℚ)
    (maxWidth : Option ℚ) : MeasureSize :=
  if text.isEmpty then ⟨0, fontSize * (6 / 5)⟩
  else if parley.width = 0 || parley.height = 0 then
    fallbackMeasure text fontSize (6 / 5) maxWidth
  else parley

/-! ## Render tree flattening (render.rs)

The Taffy solver's output is embedded as a tree of solved nodes: each node
carries its computed layout (position within the parent and size), the
side-table entry `node_data.get(&node_id)` (`none` when absent), and its
children in traversal order.  The Parley-backed
`TextLayoutEngine::layout` call is external and is supplied as a function
argument `engine`. -/

/-- render.rs `Rect`. -/
structure Rect where
  x : ℚ
  y : ℚ
  width : ℚ
  height : ℚ
deriving DecidableEq, Repr

/-- Four corner radii `[top-left, top-right, bottom-right, bottom-left]`
(the `[f32; 4]` arrays of the source). -/
structure Radii where
  tl : ℚ
  tr : ℚ
  br : ℚ
  bl : ℚ
deriving DecidableEq, Repr

/-- element.rs `TextAlign`. -/
inductive TextAlign where
  | left
  | center
  | right
  | justify
deriving DecidableEq, Repr

/-- layout.rs `TextStyleResolved`. -/
structure TextStyleResolved where
  fontFamily : List Char
  fontSize : ℚ
  fontWeight : Nat
  lineHeight : ℚ
  textAlign : TextAlign
  color : Color
  letterSpacing : ℚ
deriving DecidableEq, Repr

/-- render.rs `TextLineRender`. -/
structure TextLineRender where
  x : ℚ
  y : ℚ
  text : List Char
deriving DecidableEq, Repr

/-- render.rs `RenderCommand`. -/
inductive RenderCommand where
  | fillRect (rect : Rect) (color : Color) (borderRadius : Radii)
  | strokeRect (rect : Rect) (color : Color) (width : ℚ) (borderRadius : Radii)
  | text (x y : ℚ) (content : List Char) (fontFamily : List Char)
      (fontSize : ℚ) (fontWeight : Nat) (color : Color)
      (lines : List TextLineRender)
  | textPath (pathData : List Char) (color : Color)
  | image (rect : Rect) (src : List Char) (borderRadius : Radii)
  | pushClip (rect : Rect) (borderRadius : Radii)
  | popClip
  | pushOpacity (opacity : ℚ)
  | popOpacity
deriving DecidableEq, Repr

/-- Whether a command opens a group (PushClip or PushOpacity). -/
def RenderCommand.isPush : RenderCommand → Bool
  | .pushClip _ _ => true
  | .pushOpacity _ => true
  | _ => false

/-- Whether a command closes a group (PopClip or PopOpacity). -/
def RenderCommand.isPop : RenderCommand → Bool
  | .popClip => true
  | .popOpacity => true
  | _ => false

/-- Number of Push commands (PushClip plus PushOpacity) in a stream. -/
def pushCount (l : List RenderCommand) : Nat := l.countP RenderCommand.isPush

/-- Number of Pop commands (PopClip plus PopOpacity) in a stream. -/
def popCount (l : List RenderCommand) : Nat := l.countP RenderCommand.isPop

/-- Stack discipline of a command segment: overall pushes equal pops, and
no prefix has more pops than pushes (running depth never negative). -/
def Balanced (l : List RenderCommand) : Prop :=
  pushCount l = popCount l ∧ ∀ pre, pre <+: l → popCount pre ≤ pushCount pre

/-- layout.rs `ElementType`. -/
inductive ElementType where
  | box
  | flex
  | text (content : List Char) (style : TextStyleResolved)
  | image (src : List Char)
deriving DecidableEq, Repr

/-- layout.rs `VisualStyle`. -/
structure VisualStyle where
  backgroundColor : Option Color
  borderWidth : ℚ
  borderColor : Option Color
  borderRadius : Radii
  opacity : ℚ
deriving DecidableEq, Repr

/-- layout.rs `NodeData`. -/
structure NodeData where
  elementType : ElementType
  visual : VisualStyle
deriving DecidableEq, Repr

/-- A node of the solved layout tree: Taffy's computed layout (location
within the parent and size), the `node_data` side-table entry, and the
children in Taffy child order. -/
inductive SolvedNode where
  | mk (locX locY width height : ℚ) (data : Option NodeData)
      (children : List SolvedNode)

/-- The computed width of a solved node. -/
def SolvedNode.width : SolvedNode → ℚ
  | .mk _ _ w _ _ _ => w

/-- The computed height of a solved node. -/
def SolvedNode.height : SolvedNode → ℚ
  | .mk _ _ _ h _ _ => h

/-- A line of laid-out text as returned by the external
`TextLayoutEngine::layout` (text.rs `TextLine`, glyphs omitted — they are
not read by the flattener). -/
structure TextLine where
  text : List Char
  baseline : ℚ
  ascent : ℚ
  descent : ℚ
deriving DecidableEq, Repr

/-- text.rs `TextLayoutResult`. -/
structure TextLayoutResult where
  width : ℚ
  height : ℚ
  lines : List TextLine
deriving DecidableEq, Repr

/-- The external text layout operation: content, resolved style and wrap
width to line metrics. -/
def TextLayoutFn : Type :=
  List Char → TextStyleResolved → ℚ → TextLayoutResult

/-- The lines loop of render.rs `render_node` for a text node: one
`TextLineRender` per laid-out line, with `y` advanced by
`ascent + descent` per line and offset by the line's baseline. -/
def textRenderLines (content : List Char) (x y : ℚ) :
    List TextLine → ℚ → List TextLineRender
  | [], _ => []
  | line :: rest, currentY =>
    ⟨x, currentY + line.baseline, content⟩ ::
      textRenderLines content x y rest (currentY + line.ascent + line.descent)

/-- The text command emitted by render.rs `render_node` (lines 208–246):
`y` is the node origin plus the first line's baseline (or the font size
when there are no lines). -/
def textCommand (engine : TextLayoutFn) (content : List Char)
    (style : TextStyleResolved) (x y width : ℚ) : RenderCommand :=
  let textLayout := engine content style width
  RenderCommand.text x
    (y + ((textLayout.lines.head?.map (fun l => l.baseline)).getD style.fontSize))
    content style.fontFamily style.fontSize style.fontWeight style.color
    (textRenderLines content x y textLayout.lines y)

/-- Model of render.rs `render_node`: depth-first pre-order flattening of
the solved tree into render commands, threading absolute offsets.  A node
with no `node_data` entry emits nothing (the whole body of the source
function sits under `if let Some(data)`). -/
def renderNode (engine : TextLayoutFn) (node : SolvedNode)
    (parentX parentY : ℚ) : List RenderCommand :=
  match node with
  | .mk locX locY width height dataOpt children =>
    match dataOpt with
    | none => []
    | some data =>
      let x := parentX + locX
      let y := parentY + locY
      let rect : Rect := ⟨x, y, width, height⟩
      let visual := data.visual
      let needsOpacity := visual.opacity < 1
      let opens := if needsOpacity then [RenderCommand.pushOpacity visual.opacity] else []
      let bg := match visual.backgroundColor with
        | some bgColor =>
          if 0 < bgColor.a then
            [RenderCommand.fillRect rect bgColor visual.borderRadius]
          else []
        | none => []
      let border := if 0 < visual.borderWidth then
          match visual.borderColor with
          | some borderColor =>
            if 0 < borderColor.a then
              [RenderCommand.strokeRect rect borderColor visual.borderWidth
                visual.borderRadius]
            else []
          | none => []
        else []
      let body := match data.elementType with
        | .box | .flex =>
          (children.attach.map (fun c => renderNode engine c.1 x y)).flatten
        | .text content style => [textCommand engine content style x y width]
        | .image src => [RenderCommand.image rect src visual.borderRadius]
      let closes := if needsOpacity then [RenderCommand.popOpacity] else []
      opens ++ bg ++ border ++ body ++ closes
termination_by sizeOf node
decreasing_by
  all_goals
    have h1 := List.sizeOf_lt_of_mem c.2
    simp only [SolvedNode.mk.sizeOf_spec]
    omega

/-- render.rs `RenderTree`. -/
structure RenderTree where
  commands : List RenderCommand
  width : ℚ
  height : ℚ

/-- Model of render.rs `build_render_tree`: the canvas size is the root's
solved size, and the command list is the flattening of the root at offset
`(0, 0)`. -/
def buildRenderTree (engine : TextLayoutFn) (root : SolvedNode) : RenderTree :=
  ⟨renderNode engine root 0 0, root.width, root.height⟩

/-! ## SVG serialization (svg.rs) -/

/-- svg.rs `SvgOptions`. -/
structure SvgOptions where
  xmlDeclaration : Bool
  pretty : Bool
  precision : Nat
deriving DecidableEq, Repr

/-- svg.rs `SvgOptions::default`. -/
def svgOptionsDefault : SvgOptions := ⟨true, false, 2⟩

/-- Model of Rust fixed-precision float formatting `{:.p$}`: round the
value to `p` decimals (nearest; the half-up tie rule stands in for the
tie-free rounding of concrete `f32` values) and print with exactly `p`
fractional digits. -/
def fmtFixed (p : Nat) (q : ℚ) : List Char :=
  let n : ℤ := round (q * (10 : ℚ) ^ p)
  let m := n.natAbs
  (if n < 0 then ['-'] else []) ++ natRepr (m / 10 ^ p) ++
    (if p = 0 then [] else '.' :: padDigits p (m % 10 ^ p))

/-- Model of svg.rs `escape_xml`.  The source applies five sequential
`replace` calls starting with `&`; since no replacement text contains a
character replaced later, this equals the single character-wise pass. -/
def escapeXml (s : List Char) : List Char :=
  s.flatMap fun c =>
    if c = '&' then "&amp;".toList
    else if c = '<' then "&lt;".toList
    else if c = '>' then "&gt;".toList
    else if c = '"' then "&quot;".toList
    else if c = '\'' then "&apos;".toList
    else [c]

/-- Model of svg.rs `all_same`: every radius within 0.001 of the first. -/
def allSame (r : Radii) : Bool :=
  decide (|r.tl - r.tl| < 1 / 1000) && decide (|r.tr - r.tl| < 1 / 1000) &&
    decide (|r.br - r.tl| < 1 / 1000) && decide (|r.bl - r.tl| < 1 / 1000)

/-- Whether any corner radius is positive (the `iter().any(|&r| r > 0.0)`
checks of svg.rs). -/
def anyRadius (r : Radii) : Bool :=
  decide (0 < r.tl) || decide (0 < r.tr) || decide (0 < r.br) || decide (0 < r.bl)

/-- Model of svg.rs `rounded_rect_path`: clamp the radii to half the
smaller rect dimension and emit the closed path whose corners are
quadratic curves through the un-rounded corner points. -/
def roundedRectPath (rect : Rect) (radii : Radii) (precision : Nat) : List Char :=
  let maxRadius := min (rect.width / 2) (rect.height / 2)
  let tl := min radii.tl maxRadius
  let tr := min radii.tr maxRadius
  let br := min radii.br maxRadius
  let bl := min radii.bl maxRadius
  let x := rect.x
  let y := rect.y
  let w := rect.width
  let h := rect.height
  let f := fmtFixed precision
  let pt := fun (a b : ℚ) => f a ++ ',' :: f b
  ("M ".toList) ++ pt (x + tl) y ++
    (" L ".toList) ++ pt (x + w - tr) y ++
    (" Q ".toList) ++ pt (x + w) y ++ ' ' :: pt (x + w) (y + tr) ++
    (" L ".toList) ++ pt (x + w) (y + h - br) ++
    (" Q ".toList) ++ pt (x + w) (y + h) ++ ' ' :: pt (x + w - br) (y + h) ++
    (" L ".toList) ++ pt (x + bl) (y + h) ++
    (" Q ".toList) ++ pt x (y + h) ++ ' ' :: pt x (y + h - bl) ++
    (" L ".toList) ++ pt x (y + tl) ++
    (" Q ".toList) ++ pt x y ++ ' ' :: pt x (y + tl) ++
    (" Z".toList)

/-- svg.rs `SvgBuilder` state: accumulated output and the clip-path id
counter. -/
structure SvgState where
  output : List Char
  clipIdCounter : Nat

/-- An `x="..."` style attribute with a fixed-precision numeric value. -/
def numAttr (p : Nat) (nm : List Char) (v : ℚ) : List Char :=
  nm ++ '=' :: '"' :: fmtFixed p v ++ ['"']

/-- The four position/size attributes of a `<rect>`. -/
def rectAttrs (p : Nat) (rect : Rect) : List Char :=
  numAttr p ("x".toList) rect.x ++ ' ' :: numAttr p ("y".toList) rect.y ++
    ' ' :: numAttr p ("width".toList) rect.width ++
    ' ' :: numAttr p ("height".toList) rect.height

/-- Model of svg.rs `render_fill_rect`. -/
def renderFillRect (p : Nat) (rect : Rect) (color : Color) (radii : Radii)
    (out : List Char) : List Char :=
  if color.a = 0 then out
  else if anyRadius radii && !allSame radii then
    out ++ ("<path d=\"".toList) ++ roundedRectPath rect radii p ++
      ("\" fill=\"".toList) ++ color.toCss ++ ("\"/>".toList)
  else if anyRadius radii then
    out ++ ("<rect ".toList) ++ rectAttrs p rect ++
      ' ' :: numAttr p ("rx".toList) radii.tl ++
      (" fill=\"".toList) ++ color.toCss ++ ("\"/>".toList)
  else
    out ++ ("<rect ".toList) ++ rectAttrs p rect ++
      (" fill=\"".toList) ++ color.toCss ++ ("\"/>".toList)

/-- Model of svg.rs `render_stroke_rect` (rect inset by half the stroke
width). -/
def renderStrokeRect (p : Nat) (rect : Rect) (color : Color)
    (strokeWidth : ℚ) (radii : Radii) (out : List Char) : List Char :=
  if color.a = 0 || strokeWidth ≤ 0 then out
  else
    let inset := strokeWidth / 2
    let innerRect : Rect := ⟨rect.x + inset, rect.y + inset,
      rect.width - strokeWidth, rect.height - strokeWidth⟩
    if anyRadius radii && !allSame radii then
      out ++ ("<path d=\"".toList) ++ roundedRectPath innerRect radii p ++
        ("\" fill=\"none\" stroke=\"".toList) ++ color.toCss ++
        ("\" ".toList) ++ numAttr p ("stroke-width".toList) strokeWidth ++
        ("/>".toList)
    else if anyRadius radii then
      out ++ ("<rect ".toList) ++ rectAttrs p innerRect ++
        ' ' :: numAttr p ("rx".toList) radii.tl ++
        (" fill=\"none\" stroke=\"".toList) ++ color.toCss ++
        ("\" ".toList) ++ numAttr p ("stroke-width".toList) strokeWidth ++
        ("/>".toList)
    else
      out ++ ("<rect ".toList) ++ rectAttrs p innerRect ++
        (" fill=\"none\" stroke=\"".toList) ++ color.toCss ++
        ("\" ".toList) ++ numAttr p ("stroke-width".toList) strokeWidth ++
        ("/>".toList)

/-- Model of svg.rs `render_text`: single-line text is one `<text>`
element, multi-line text is a `<text>` wrapper with one `<tspan>` per
line. -/
def renderText (p : Nat) (fontFamily : List Char) (fontSize : ℚ)
    (fontWeight : Nat) (color : Color) (lines : List TextLineRender)
    (out : List Char) : List Char :=
  match lines with
  | [] => out
  | [line] =>
    out ++ ("<text ".toList) ++ numAttr p ("x".toList) line.x ++
      ' ' :: numAttr p ("y".toList) line.y ++
      (" fill=\"".toList) ++ color.toCss ++
      ("\" font-family=\"".toList) ++ escapeXml fontFamily ++
      ("\" ".toList) ++ numAttr p ("font-size".toList) fontSize ++
      (" font-weight=\"".toList) ++ natRepr fontWeight ++
      ("\">".toList) ++ escapeXml line.text ++ ("</text>".toList)
  | _ =>
    out ++ ("<text fill=\"".toList) ++ color.toCss ++
      ("\" font-family=\"".toList) ++ escapeXml fontFamily ++
      ("\" ".toList) ++ numAttr p ("font-size".toList) fontSize ++
      (" font-weight=\"".toList) ++ natRepr fontWeight ++
      ("\">".toList) ++
      (lines.flatMap fun line =>
        ("<tspan ".toList) ++ numAttr p ("x".toList) line.x ++
          ' ' :: numAttr p ("y".toList) line.y ++ ('>' :: escapeXml line.text) ++
          ("</tspan>".toList)) ++
      ("</text>".toList)

/-- Model of svg.rs `render_image`: images with a radius are wrapped in a
generated clip path (consuming a clip id), plain images are emitted
directly. -/
def renderImage (p : Nat) (rect : Rect) (src : List Char) (radii : Radii)
    (st : SvgState) : SvgState :=
  if anyRadius radii then
    let clipId := st.clipIdCounter
    let clipShape :=
      if allSame radii then
        ("<rect ".toList) ++ rectAttrs p rect ++
          ' ' :: numAttr p ("rx".toList) radii.tl ++ ("/>".toList)
      else
        ("<path d=\"".toList) ++ roundedRectPath rect radii p ++ ("\"/>".toList)
    ⟨st.output ++ ("<defs><clipPath id=\"img-clip-".toList) ++ natRepr clipId ++
      ("\">".toList) ++ clipShape ++ ("</clipPath></defs>".toList) ++
      ("<image ".toList) ++ rectAttrs p rect ++
      (" xlink:href=\"".toList) ++ escapeXml src ++
      ("\" clip-path=\"url(#img-clip-".toList) ++ natRepr clipId ++
      (")\"/>".toList), st.clipIdCounter + 1⟩
  else
    ⟨st.output ++ ("<image ".toList) ++ rectAttrs p rect ++
      (" xlink:href=\"".toList) ++ escapeXml src ++ ("\"/>".toList),
      st.clipIdCounter⟩

/-- Model of svg.rs `push_clip`: emit the clip-path definition and open a
group referencing it, consuming a clip id. -/
def pushClipSvg (p : Nat) (rect : Rect) (radii : Radii) (st : SvgState) :
    SvgState :=
  let clipId := st.clipIdCounter
  let clipShape :=
    if anyRadius radii then
      if allSame radii then
        ("<rect ".toList) ++ rectAttrs p rect ++
          ' ' :: numAttr p ("rx".toList) radii.tl ++ ("/>".toList)
      else
        ("<path d=\"".toList) ++ roundedRectPath rect radii p ++ ("\"/>".toList)
    else
      ("<rect ".toList) ++ rectAttrs p rect ++ ("/>".toList)
  ⟨st.output ++ ("<defs><clipPath id=\"clip-".toList) ++ natRepr clipId ++
    ("\">".toList) ++ clipShape ++ ("</clipPath></defs>".toList) ++
    ("<g clip-path=\"url(#clip-".toList) ++ natRepr clipId ++ (")\">".toList),
    st.clipIdCounter + 1⟩

/-- Model of svg.rs `render_command`: dispatch one command against the
builder state. -/
def renderCommandSvg (opts : SvgOptions) (st : SvgState)
    (cmd : RenderCommand) : SvgState :=
  let p := opts.precision
  match cmd with
  | .fillRect rect color radii =>
    ⟨renderFillRect p rect color radii st.output, st.clipIdCounter⟩
  | .strokeRect rect color w radii =>
    ⟨renderStrokeRect p rect color w radii st.output, st.clipIdCounter⟩
  | .text _ _ _ fontFamily fontSize fontWeight color lines =>
    ⟨renderText p fontFamily fontSize fontWeight color lines st.output,
      st.clipIdCounter⟩
  | .textPath pathData color =>
    ⟨st.output ++ ("<path d=\"".toList) ++ pathData ++
      ("\" fill=\"".toList) ++ color.toCss ++ ("\"/>".toList),
      st.clipIdCounter⟩
  | .image rect src radii => renderImage p rect src radii st
  | .pushClip rect radii => pushClipSvg p rect radii st
  | .popClip => ⟨st.output ++ ("</g>".toList), st.clipIdCounter⟩
  | .pushOpacity opacity =>
    ⟨st.output ++ ("<g opacity=\"".toList) ++ fmtFixed 2 opacity ++
      ("\">".toList), st.clipIdCounter⟩
  | .popOpacity => ⟨st.output ++ ("</g>".toList), st.clipIdCounter⟩

/-- Model of svg.rs `SvgBuilder::new`: the optional XML declaration and
the `<svg>` root element with fixed-precision width/height/viewBox. -/
def svgHeader (width height : ℚ) (opts : SvgOptions) : List Char :=
  (if opts.xmlDeclaration then
    ("<?xml version=\"1.0\" encoding=\"UTF-8\"?>\n".toList)
  else []) ++
  ("<svg xmlns=\"http://www.w3.org/2000/svg\" xmlns:xlink=\"http://www.w3.org/1999/xlink\" ".toList) ++
  numAttr opts.precision ("width".toList) width ++
  ' ' :: numAttr opts.precision ("height".toList) height ++
  (" viewBox=\"0 0 ".toList) ++ fmtFixed opts.precision width ++
  ' ' :: fmtFixed opts.precision height ++ ("\">".toList)

/-- Model of svg.rs `generate_svg`: header, all commands in order, then
the closing tag. -/
def generateSvg (tree : RenderTree) (opts : SvgOptions) : List Char :=
  let st0 : SvgState := ⟨svgHeader tree.width tree.height opts, 0⟩
  let st := tree.commands.foldl (renderCommandSvg opts) st0
  st.output ++ ("</svg>".toList)

/-! ## Element data model (element.rs) and the compile pipeline (lib.rs) -/

/-- element.rs `Display`. -/
inductive Display where
  | block
  | flex
  | none
deriving DecidableEq, Repr

/-- element.rs `FlexDirection`. -/
inductive FlexDirection where
  | row
  | column
  | rowReverse
  | columnReverse
deriving DecidableEq, Repr

/-- element.rs `JustifyContent`. -/
inductive JustifyContent where
  | flexStart
  | flexEnd
  | center
  | spaceBetween
  | spaceAround
  | spaceEvenly
deriving DecidableEq, Repr

/-- element.rs `AlignItems`. -/
inductive AlignItems where
  | flexStart
  | flexEnd
  | center
  | stretch
  | baseline
deriving DecidableEq, Repr

/-- element.rs `FlexWrap`. -/
inductive FlexWrap where
  | nowrap
  | wrap
deriving DecidableEq, Repr

/-- element.rs `TextRendering`. -/
inductive TextRendering where
  | text
  | vector
deriving DecidableEq, Repr

/-- element.rs `ObjectFit`. -/
inductive ObjectFit where
  | contain
  | cover
  | fill
deriving DecidableEq, Repr

/-- element.rs `BoxStyle` (every field optional in the input). -/
structure BoxStyle where
  display : Option Display
  width : Option Dimension
  height : Option Dimension
  minWidth : Option Dimension
  maxWidth : Option Dimension
  minHeight : Option Dimension
  maxHeight : Option Dimension
  margin : Option Spacing
  padding : Option Spacing
  backgroundColor : Option Color
  borderWidth : Option ℚ
  borderColor : Option Color
  borderRadius : Option BorderRadius
  opacity : Option ℚ
deriving DecidableEq, Repr

/-- element.rs `FlexStyle`. -/
structure FlexStyle where
  display : Option Display
  width : Option Dimension
  height : Option Dimension
  minWidth : Option Dimension
  maxWidth : Option Dimension
  minHeight : Option Dimension
  maxHeight : Option Dimension
  margin : Option Spacing
  padding : Option Spacing
  flexDirection : Option FlexDirection
  justifyContent : Option JustifyContent
  alignItems : Option AlignItems
  gap : Option ℚ
  flexWrap : Option FlexWrap
  backgroundColor : Option Color
  borderWidth : Option ℚ
  borderColor : Option Color
  borderRadius : Option BorderRadius
  opacity : Option ℚ
deriving DecidableEq, Repr

/-- element.rs `TextStyle` (`FontWeight` is its `u16` value). -/
structure TextStyle where
  fontFamily : Option (List Char)
  fontSize : Option ℚ
  fontWeight : Option Nat
  lineHeight : Option ℚ
  textAlign : Option TextAlign
  color : Option Color
  letterSpacing : Option ℚ
  textRendering : Option TextRendering
  flexGrow : Option ℚ
  flexShrink : Option ℚ
deriving DecidableEq, Repr

/-- element.rs `ImageStyle`. -/
structure ImageStyle where
  width : Option Dimension
  height : Option Dimension
  minWidth : Option Dimension
  maxWidth : Option Dimension
  minHeight : Option Dimension
  maxHeight : Option Dimension
  margin : Option Spacing
  objectFit : Option ObjectFit
  borderRadius : Option BorderRadius
  opacity : Option ℚ
  flexGrow : Option ℚ
  flexShrink : Option ℚ
deriving DecidableEq, Repr

/-- element.rs `Element`: the tagged input tree. -/
inductive Element where
  | box (style : BoxStyle) (children : List Element)
  | flex (style : FlexStyle) (children : List Element)
  | text (content : List Char) (style : TextStyle)
  | image (src : List Char) (width height : ℚ) (style : ImageStyle)

/-- lib.rs `CompileOptions`. -/
structure CompileOptions where
  width : ℚ
  height : Option ℚ
  baseFontSize : ℚ
deriving DecidableEq, Repr

/-- lib.rs `CompileOptions::default`. -/
def compileOptionsDefault : CompileOptions := ⟨800, none, 16⟩

/-- lib.rs `CompileResult`. -/
structure CompileResult where
  svg : List Char
  width : ℚ
  height : ℚ
  warnings : List (List Char)

/-- lib.rs `CompileError` (a message and a kind tag). -/
structure CompileError where
  message : List Char
  kind : List Char

/-- The external layout computation (layout.rs `compute_layout`: Taffy
tree construction plus `compute_layout_with_measure`), as a function from
the element tree and options to either an error message or the solved
tree. -/
def LayoutFn : Type :=
  Element → CompileOptions → Except (List Char) SolvedNode

/-- The external serde_json deserialization of an `Element`, as a function
from input text to either an error message or the parsed tree. -/
def JsonParseFn : Type :=
  List Char → Except (List Char) Element

/-- Model of lib.rs `compile_element`: compute layout (failures become a
`layout_error`), flatten to render commands, serialize with default SVG
options, and report the render tree's width/height with an empty warning
list. -/
def compileElement (computeLayout : LayoutFn) (engine : TextLayoutFn)
    (element : Element) (options : CompileOptions) :
    Except CompileError CompileResult :=
  match computeLayout element options with
  | .error e => .error ⟨e, "layout_error".toList⟩
  | .ok solved =>
    let renderTree := buildRenderTree engine solved
    let svg := generateSvg renderTree svgOptionsDefault
    .ok ⟨svg, renderTree.width, renderTree.height, []⟩

/-- Model of lib.rs `compile`: parse the element JSON (failures become a
`parse_error`), then `compile_element`. -/
def compile (serdeParse : JsonParseFn) (computeLayout : LayoutFn)
    (engine : TextLayoutFn) (elementJson : List Char)
    (options : CompileOptions) : Except CompileError CompileResult :=
  match serdeParse elementJson with
  | .error e => .error ⟨e, "parse_error".toList⟩
  | .ok element => compileElement computeLayout engine element options

/-! ## Helper lemmas -/

/-- Appending a word to a non-empty join inserts exactly one space. -/
theorem spaceJoin_append_single (xs : List (List Char)) (y : List Char)
    (hxs : xs ≠ []) : spaceJoin (xs ++ [y]) = spaceJoin xs ++ ' ' :: y := by
  induction xs with
  | nil => simp at hxs
  | cons x xs ih =>
    cases xs with
    | nil => rfl
    | cons x2 xs2 =>
      have h2 : x2 :: xs2 ≠ [] := by simp
      calc spaceJoin ((x :: x2 :: xs2) ++ [y])
          = x ++ ' ' :: spaceJoin ((x2 :: xs2) ++ [y]) := rfl
        _ = x ++ ' ' :: (spaceJoin (x2 :: xs2) ++ ' ' :: y) := by rw [ih h2]
        _ = spaceJoin (x :: x2 :: xs2) ++ ' ' :: y := by simp [spaceJoin]

/-- Estimated width of a line extended by a space and a word. -/
theorem estimate_append_space (a b : List Char) (fs : ℚ) :
    estimateTextWidth (a ++ ' ' :: b) fs =
      estimateTextWidth a fs + fs * charWidthRatio + estimateTextWidth b fs := by
  simp only [estimateTextWidth, List.length_append, List.length_cons]
  push_cast
  ring

/-- Invariant of the `word_wrap` loop: with a non-negative limit, every
produced line either fits the limit or is a single word of the word list,
and every line is a space-join of words of the word list. -/
theorem wordWrapGo_sound (fs mw : ℚ) (hmw : 0 ≤ mw) (allW : List (List Char)) :
    ∀ (ws lines : List (List Char)) (current : List Char) (curW : ℚ),
    (∀ w ∈ ws, w ∈ allW) →
    (∀ l ∈ lines, (estimateTextWidth l fs ≤ mw ∨ l ∈ allW) ∧
      ∃ chunk, (∀ w ∈ chunk, w ∈ allW) ∧ l = spaceJoin chunk) →
    (current = [] ∨
      ((estimateTextWidth current fs ≤ mw ∨ current ∈ allW) ∧
        ∃ chunk, chunk ≠ [] ∧ (∀ w ∈ chunk, w ∈ allW) ∧ current = spaceJoin chunk)) →
    curW = estimateTextWidth current fs →
    ∀ l ∈ wordWrapGo fs (some mw) ws lines current curW,
      (estimateTextWidth l fs ≤ mw ∨ l ∈ allW) ∧
      ∃ chunk, (∀ w ∈ chunk, w ∈ allW) ∧ l = spaceJoin chunk := by
  intro ws
  induction ws with
  | nil =>
    intro lines current curW _ hlines hcur hw l hl
    simp only [wordWrapGo] at hl
    cases hce : current.isEmpty with
    | true =>
      simp only [hce, if_true] at hl
      by_cases hle : lines.isEmpty
      · simp only [hle, if_true, List.mem_singleton] at hl
        subst hl
        refine ⟨Or.inl ?_, [], by simp, rfl⟩
        simpa [estimateTextWidth] using hmw
      · simp only [hle, if_false] at hl
        exact hlines l hl
    | false =>
      simp only [hce, Bool.false_eq_true, if_false] at hl
      have hne : ((lines ++ [current]).isEmpty) = false := by simp
      simp only [hne, Bool.false_eq_true, if_false] at hl
      rcases List.mem_append.mp hl with h | h
      · exact hlines l h
      · have hlc : l = current := by simpa using h
        subst hlc
        rcases hcur with rfl | ⟨hok, chunk, _, hmem, hj⟩
        · simp at hce
        · exact ⟨hok, chunk, hmem, hj⟩
  | cons w ws ih =>
    intro lines current curW hws hlines hcur hw l hl
    simp only [wordWrapGo] at hl
    have hwin : w ∈ allW := hws w (List.mem_cons_self w ws)
    have hws' : ∀ x ∈ ws, x ∈ allW := fun x hx => hws x (List.mem_cons_of_mem w hx)
    have hsingle : ∀ x : List Char, x ∈ allW →
        (x = [] ∨
          ((estimateTextWidth x fs ≤ mw ∨ x ∈ allW) ∧
            ∃ chunk, chunk ≠ [] ∧ (∀ v ∈ chunk, v ∈ allW) ∧ x = spaceJoin chunk)) := by
      intro x hx
      refine Or.inr ⟨Or.inr hx, [x], by simp, ?_, rfl⟩
      intro v hv
      have hvx : v = x := by simpa using hv
      subst hvx
      exact hx
    cases hce : current.isEmpty with
    | true =>
      simp only [hce, Bool.not_true, Bool.false_and, Bool.false_eq_true, if_false,
        if_true] at hl
      exact ih lines w (estimateTextWidth w fs) hws' hlines (hsingle w hwin) rfl l hl
    | false =>
      rcases hcur with rfl | ⟨hok, chunk, hchne, hchmem, hj⟩
      · simp at hce
      cases hex : exceedsLimit (some mw)
          (curW + fs * charWidthRatio + estimateTextWidth w fs) with
      | true =>
        simp only [hce, Bool.not_false, Bool.true_and, hex, if_true] at hl
        refine ih (lines ++ [current]) w (estimateTextWidth w fs) hws' ?_
          (hsingle w hwin) rfl l hl
        intro x hx
        rcases List.mem_append.mp hx with h | h
        · exact hlines x h
        · have hxc : x = current := by simpa using h
          subst hxc
          exact ⟨hok, chunk, hchmem, hj⟩
      | false =>
        simp only [hce, Bool.not_false, Bool.true_and, hex, Bool.false_eq_true,
          if_false] at hl
        have hle : curW + fs * charWidthRatio + estimateTextWidth w fs ≤ mw := by
          simp only [exceedsLimit, decide_eq_false_iff_not] at hex
          exact le_of_not_lt hex
        refine ih lines (current ++ ' ' :: w)
          (curW + fs * charWidthRatio + estimateTextWidth w fs) hws' hlines ?_ ?_ l hl
        · refine Or.inr ⟨Or.inl ?_, chunk ++ [w], by simp, ?_, ?_⟩
          · rw [estimate_append_space, ← hw]
            exact hle
          · intro x hx
            rcases List.mem_append.mp hx with h | h
            · exact hchmem x h
            · have hxw : x = w := by simpa using h
              subst hxw
              exact hwin
          · rw [spaceJoin_append_single chunk w hchne, ← hj]
        · rw [estimate_append_space, ← hw]

/-- The empty stream is balanced. -/
theorem balanced_nil : Balanced [] := by
  constructor
  · rfl
  · intro pre hpre
    have hp : pre = [] := List.prefix_nil.mp hpre
    subst hp
    exact le_rfl

/-- A prefix of a concatenation is a prefix of the first part or extends
it by a prefix of the second. -/
theorem prefix_append_split {α : Type} (a b pre : List α) (h : pre <+: a ++ b) :
    pre <+: a ∨ ∃ q, q <+: b ∧ pre = a ++ q := by
  induction a generalizing pre with
  | nil => exact Or.inr ⟨pre, by simpa using h, by simp⟩
  | cons x a ih =>
    cases pre with
    | nil => exact Or.inl (by simp)
    | cons y pre2 =>
      rw [List.cons_append, List.cons_prefix_cons] at h
      rcases h with ⟨rfl, h2⟩
      rcases ih pre2 h2 with h3 | ⟨q, hq, rfl⟩
      · exact Or.inl (List.cons_prefix_cons.mpr ⟨rfl, h3⟩)
      · exact Or.inr ⟨q, hq, by simp⟩

/-- Balanced segments compose. -/
theorem balanced_append (a b : List RenderCommand) (ha : Balanced a)
    (hb : Balanced b) : Balanced (a ++ b) := by
  obtain ⟨ha1, ha2⟩ := ha
  obtain ⟨hb1, hb2⟩ := hb
  simp only [pushCount, popCount] at ha1 hb1
  constructor
  · simp only [pushCount, popCount, List.countP_append]
    omega
  · intro pre hpre
    rcases prefix_append_split a b pre hpre with h | ⟨q, hq, rfl⟩
    · exact ha2 pre h
    · have h1 := hb2 q hq
      have h2 := ha2 a (by simp)
      simp only [pushCount, popCount, List.countP_append] at *
      omega

/-- A single non-push non-pop command is balanced. -/
theorem balanced_neutral (c : RenderCommand) (hpu : c.isPush = false)
    (hpo : c.isPop = false) : Balanced [c] := by
  constructor
  · simp [pushCount, popCount, List.countP_cons, hpu, hpo]
  · intro pre hpre
    rcases List.prefix_cons_iff.mp hpre with rfl | ⟨t, rfl, ht⟩
    · exact le_rfl
    · have ht2 : t = [] := List.prefix_nil.mp ht
      subst ht2
      simp [pushCount, popCount, List.countP_cons, hpu, hpo]

/-- A flattening of balanced segments is balanced. -/
theorem balanced_flatten (ls : List (List RenderCommand))
    (h : ∀ x ∈ ls, Balanced x) : Balanced ls.flatten := by
  induction ls with
  | nil => exact balanced_nil
  | cons x ls ih =>
    rw [List.flatten_cons]
    exact balanced_append x ls.flatten (h x (by simp))
      (ih fun y hy => h y (List.mem_cons_of_mem x hy))

/-- Wrapping a balanced segment in a PushOpacity/PopOpacity pair keeps it
balanced. -/
theorem balanced_wrap (o : ℚ) (m : List RenderCommand) (hm : Balanced m) :
    Balanced (RenderCommand.pushOpacity o :: m ++ [RenderCommand.popOpacity]) := by
  obtain ⟨hm1, hm2⟩ := hm
  simp only [pushCount, popCount] at hm1
  constructor
  · simp [pushCount, popCount, List.countP_cons, List.countP_append,
      RenderCommand.isPush, RenderCommand.isPop]
    omega
  · intro pre hpre
    rcases List.prefix_cons_iff.mp hpre with rfl | ⟨t, rfl, ht⟩
    · exact le_rfl
    · rcases prefix_append_split m [RenderCommand.popOpacity] t ht with h | ⟨q, hq, rfl⟩
      · have h1 := hm2 t h
        simp only [pushCount, popCount] at h1
        simp [pushCount, popCount, List.countP_cons, RenderCommand.isPush,
          RenderCommand.isPop]
        omega
      · have hq2 : q = [] ∨ q = [RenderCommand.popOpacity] := by
          cases q with
          | nil => exact Or.inl rfl
          | cons z zs =>
            rw [List.cons_prefix_cons] at hq
            rcases hq with ⟨rfl, hzs⟩
            have hz : zs = [] := List.prefix_nil.mp hzs
            subst hz
            exact Or.inr rfl
        rcases hq2 with rfl | rfl <;>
        · simp [pushCount, popCount, List.countP_cons, List.countP_append,
            RenderCommand.isPush, RenderCommand.isPop]
          omega

/-- Structural induction over solved trees with the hypothesis available
for every child. -/
theorem SolvedNode.inductionOn {motive : SolvedNode → Prop}
    (step : ∀ locX locY width height data children,
      (∀ c ∈ children, motive c) →
      motive (SolvedNode.mk locX locY width height data children)) :
    ∀ n, motive n
  | .mk locX locY width height data children =>
    step locX locY width height data children
      (fun c hc => SolvedNode.inductionOn step c)
termination_by n => sizeOf n
decreasing_by
  have h1 := List.sizeOf_lt_of_mem hc
  simp only [SolvedNode.mk.sizeOf_spec]
  omega

/-- The command block emitted for one node is balanced when its background,
border and body segments are. -/
theorem balanced_section (cond : Prop) [Decidable cond] (o : ℚ)
    (bg border body : List RenderCommand) (hbg : Balanced bg)
    (hbd : Balanced border) (hbody : Balanced body) :
    Balanced ((if cond then [RenderCommand.pushOpacity o] else []) ++ bg ++
      border ++ body ++ (if cond then [RenderCommand.popOpacity] else [])) := by
  have hmid : Balanced (bg ++ border ++ body) :=
    balanced_append (bg ++ border) body (balanced_append bg border hbg hbd) hbody
  by_cases hc : cond
  · simp only [hc, if_true]
    have hw := balanced_wrap o (bg ++ border ++ body) hmid
    simpa using hw
  · simp only [hc, if_false]
    simpa using hmid

/-- Every command list produced by `render_node` is balanced. -/
theorem renderNode_balanced (engine : TextLayoutFn) (n : SolvedNode) :
    ∀ (px py : ℚ), Balanced (renderNode engine n px py) := by
  induction n using SolvedNode.inductionOn with
  | step locX locY w h dataOpt children ih =>
    intro px py
    cases dataOpt with
    | none =>
      rw [renderNode]
      exact balanced_nil
    | some data =>
      rw [renderNode]
      apply balanced_section
      · cases hbgc : data.visual.backgroundColor with
        | none => exact balanced_nil
        | some c =>
          by_cases hca : 0 < c.a
          · simp only [hca, if_true]
            exact balanced_neutral _ rfl rfl
          · simp only [hca, if_false]
            exact balanced_nil
      · by_cases hbw : 0 < data.visual.borderWidth
        · simp only [hbw, if_true]
          cases hbc : data.visual.borderColor with
          | none => exact balanced_nil
          | some c =>
            by_cases hca : 0 < c.a
            · simp only [hca, if_true]
              exact balanced_neutral _ rfl rfl
            · simp only [hca, if_false]
              exact balanced_nil
        · simp only [hbw, if_false]
          exact balanced_nil
      · cases het : data.elementType with
        | box =>
          apply balanced_flatten
          intro x hx
          simp only [List.mem_map] at hx
          rcases hx with ⟨⟨c, hc⟩, _, rfl⟩
          exact ih c hc _ _
        | flex =>
          apply balanced_flatten
          intro x hx
          simp only [List.mem_map] at hx
          rcases hx with ⟨⟨c, hc⟩, _, rfl⟩
          exact ih c hc _ _
        | text content style =>
          exact balanced_neutral _ (by simp [textCommand, RenderCommand.isPush])
            (by simp [textCommand, RenderCommand.isPop])
        | image src =>
          exact balanced_neutral _ rfl rfl


set_option maxRecDepth 10000 in
/-- Decimal `u8` formatting consists of digits, is non-empty, and parses back. -/
theorem natRepr_spec : ∀ n, n < 256 →
    ((natRepr n).all isDigitCh = true ∧ natRepr n ≠ [] ∧
      parseU8 (natRepr n) = some n) := by decide

/-- Digit characters are digits. -/
theorem digitChar_is_digit : ∀ d, d < 10 → isDigitCh (digitChar d) = true := by decide

set_option maxRecDepth 10000 in
/-- Three zero-padded digits read back as their value. -/
theorem digitsToNat_padDigits : ∀ m, m < 1000 →
    digitsToNat (padDigits 3 m) = m := by decide

set_option maxRecDepth 10000 in
/-- The rounded alpha numerator stays below 1000. -/
theorem alphaMilli_lt : ∀ a, a < 255 → alphaMilli a < 1000 := by decide

set_option maxRecDepth 10000 in
/-- Reading back the 3-decimal alpha and scaling by 255 is within one unit. -/
theorem alpha_roundtrip_bound : ∀ a, a < 255 → 0 < a →
    (min 255 ((255 * alphaMilli a) / 1000) ≤ a + 1 ∧
      a ≤ min 255 ((255 * alphaMilli a) / 1000) + 1) := by decide

theorem digit_char_ne (c d : Char) (hc : isDigitCh c = true)
    (hd : isDigitCh d = false) : c ≠ d := by
  intro h
  subst h
  rw [hc] at hd
  cases hd

theorem digit_not_ws (c : Char) (h : isDigitCh c = true) : isWsChar c = false := by
  have h1 : c ≠ ' ' := digit_char_ne c ' ' h (by decide)
  have h2 : c ≠ '\t' := digit_char_ne c '\t' h (by decide)
  have h3 : c ≠ '\n' := digit_char_ne c '\n' h (by decide)
  have h4 : c ≠ '\r' := digit_char_ne c '\r' h (by decide)
  simp [isWsChar, h1, h2, h3, h4]

theorem all_mem_of_all {p : Char → Bool} {l : List Char} (h : l.all p = true) :
    ∀ c ∈ l, p c = true := by
  simpa [List.all_eq_true] using h

theorem dropWhile_eq_self_of_all {p : Char → Bool} {l : List Char}
    (h : ∀ c ∈ l, p c = false) : l.dropWhile p = l := by
  cases l with
  | nil => rfl
  | cons x xs => simp [List.dropWhile_cons, h x (by simp)]

theorem trimChars_eq_self {l : List Char} (h : ∀ c ∈ l, isWsChar c = false) :
    trimChars l = l := by
  unfold trimChars
  rw [dropWhile_eq_self_of_all h,
    dropWhile_eq_self_of_all (fun c hc => h c (List.mem_reverse.mp hc)),
    List.reverse_reverse]

theorem splitOnComma_no_comma {l : List Char} (h : ∀ c ∈ l, c ≠ ',') :
    splitOnComma l = [l] := by
  induction l with
  | nil => rfl
  | cons x xs ih =>
    have hx : x ≠ ',' := h x (by simp)
    simp only [splitOnComma, hx, if_false]
    rw [ih (fun c hc => h c (List.mem_cons_of_mem x hc))]

theorem splitOnComma_append {a b : List Char} (h : ∀ c ∈ a, c ≠ ',') :
    splitOnComma (a ++ ',' :: b) = a :: splitOnComma b := by
  induction a with
  | nil => simp [splitOnComma]
  | cons x xs ih =>
    have hx : x ≠ ',' := h x (by simp)
    simp only [List.cons_append, splitOnComma, List.append_eq, hx, if_false]
    rw [ih (fun c hc => h c (List.mem_cons_of_mem x hc))]

theorem trimStartMatchesStr_of_no_match {p s : List Char} (hp : p ≠ [])
    (h : p.isPrefixOf s = false) : trimStartMatchesStr p s = s := by
  rw [trimStartMatchesStr]
  simp [List.isEmpty_iff, hp, h]

theorem trimStartMatchesStr_step {p s : List Char} (hp : p ≠ [])
    (h : p.isPrefixOf s = true) :
    trimStartMatchesStr p s = trimStartMatchesStr p (s.drop p.length) := by
  rw [trimStartMatchesStr]
  simp [List.isEmpty_iff, hp, h]

theorem trimEnd_append {c d : Char} {l rest : List Char}
    (hrev : l.reverse = d :: rest) (hne : d ≠ c) :
    trimEndMatchesChar c (l ++ [c]) = l := by
  unfold trimEndMatchesChar
  rw [List.reverse_append, hrev]
  simp [hne]
  rw [← List.reverse_reverse l, hrev]
  simp

theorem padDigits_all_digits : ∀ (p m : Nat), (padDigits p m).all isDigitCh = true := by
  intro p
  induction p with
  | zero => intro m; rfl
  | succ q ih =>
    intro m
    simp only [padDigits, List.all_append, List.all_cons, List.all_nil,
      Bool.and_eq_true]
    exact ⟨by rw [ih], by simp [digitChar_is_digit (m % 10) (Nat.mod_lt m (by norm_num))]⟩

theorem padDigits_length : ∀ (p m : Nat), (padDigits p m).length = p := by
  intro p
  induction p with
  | zero => intro m; rfl
  | succ q ih =>
    intro m
    simp [padDigits, ih]

theorem parseDecimal_alpha (m : Nat) (hm : m < 1000) :
    parseDecimalChars ('0' :: '.' :: padDigits 3 m) = some ((m : ℚ) / 1000) := by
  have h1 : parseDecimalChars ('0' :: '.' :: padDigits 3 m) =
      parseDecimalUnsigned ('0' :: '.' :: padDigits 3 m) := rfl
  rw [h1]
  unfold parseDecimalUnsigned
  have hd0 : isDigitCh '0' = true := by decide
  have hdD : isDigitCh '.' = false := by decide
  have htake : ('0' :: '.' :: padDigits 3 m).takeWhile isDigitCh = ['0'] := by
    simp [List.takeWhile_cons, hd0, hdD]
  have hdrop : ('0' :: '.' :: padDigits 3 m).dropWhile isDigitCh =
      '.' :: padDigits 3 m := by
    simp [List.dropWhile_cons, hd0, hdD]
  rw [htake, hdrop]
  simp only [padDigits_all_digits, List.isEmpty_cons, Bool.and_self, Bool.true_and,
    Bool.and_false, Bool.false_and, Bool.not_false, if_true]
  rw [digitsToNat_padDigits m hm, padDigits_length]
  have hz : digitsToNat ['0'] = 0 := by decide
  rw [hz]
  norm_num

theorem toU8Sat_alpha (m : Nat) :
    toU8Sat ((m : ℚ) / 1000 * 255) = min 255 ((255 * m) / 1000) := by
  unfold toU8Sat
  congr 1
  have h1 : (m : ℚ) / 1000 * 255 = ((255 * m : ℕ) : ℚ) / ((1000 : ℕ) : ℚ) := by
    push_cast
    ring
  rw [h1, Nat.floor_div_eq_div]

theorem parseRgbParts_eval (r g b : Nat) (hr : r < 256) (hg : g < 256)
    (hb : b < 256) (m : Nat) (hm : m < 1000) :
    parseRgbParts [natRepr r, natRepr g, natRepr b, '0' :: '.' :: padDigits 3 m] =
      some ⟨r, g, b, min 255 ((255 * m) / 1000)⟩ := by
  unfold parseRgbParts
  simp only [List.getD, List.get?_cons_zero, List.get?_cons_succ, Option.getD_some]
  rw [(natRepr_spec r hr).2.2, (natRepr_spec g hg).2.2, (natRepr_spec b hb).2.2]
  simp only [List.length_cons, List.length_nil]
  rw [if_pos (by norm_num)]
  rw [parseDecimal_alpha m hm]
  show some (Color.mk r g b (toU8Sat ((m : ℚ) / 1000 * 255))) =
    some (Color.mk r g b (min 255 ((255 * m) / 1000)))
  rw [toU8Sat_alpha]

theorem all_not_ws_of_digits {l : List Char} (h : l.all isDigitCh = true) :
    l.all (fun c => !isWsChar c) = true := by
  rw [List.all_eq_true] at h ⊢
  intro c hc
  simp [digit_not_ws c (h c hc)]

theorem parse_rgba_literal (R G B : List Char) (m : Nat)
    (hR : R.all isDigitCh = true) (hRne : R ≠ [])
    (hG : G.all isDigitCh = true) (hGne : G ≠ [])
    (hB : B.all isDigitCh = true) (hBne : B ≠ [])
    (hm : m < 1000) :
    Color.parse (("rgba(".toList) ++ R ++ ',' :: G ++ ',' :: B ++
        ',' :: '0' :: '.' :: padDigits 3 m ++ [')']) =
      parseRgbParts [R, G, B, '0' :: '.' :: padDigits 3 m] := by
  obtain ⟨d1, d2, d3, hP, hd1, hd2, hd3⟩ : ∃ d1 d2 d3,
      padDigits 3 m = [d1, d2, d3] ∧ isDigitCh d1 = true ∧
        isDigitCh d2 = true ∧ isDigitCh d3 = true := by
    refine ⟨digitChar (m / 10 / 10 % 10), digitChar (m / 10 % 10),
      digitChar (m % 10), by simp [padDigits], ?_, ?_, ?_⟩ <;>
      exact digitChar_is_digit _ (Nat.mod_lt _ (by norm_num))
  rw [hP]
  obtain ⟨rh, rt, rfl⟩ : ∃ rh rt, R = rh :: rt := by
    cases R with
    | nil => exact absurd rfl hRne
    | cons x xs => exact ⟨x, xs, rfl⟩
  have hRd : ∀ c ∈ rh :: rt, isDigitCh c = true := all_mem_of_all hR
  have hGd : ∀ c ∈ G, isDigitCh c = true := all_mem_of_all hG
  have hBd : ∀ c ∈ B, isDigitCh c = true := all_mem_of_all hB
  have hrh : isDigitCh rh = true := hRd rh (by simp)
  -- the whole constructed string, in right-nested cons/append form
  have hnorm : ("rgba(".toList) ++ (rh :: rt) ++ ',' :: G ++ ',' :: B ++
      ',' :: '0' :: '.' :: [d1, d2, d3] ++ [')'] =
      'r' :: 'g' :: 'b' :: 'a' :: '(' :: rh :: (rt ++ ',' :: (G ++ ',' :: (B ++
        [',', '0', '.', d1, d2, d3, ')']))) := by
    simp
  rw [hnorm]
  have hRtd : rt.all isDigitCh = true := by
    simp only [List.all_cons, Bool.and_eq_true] at hR
    exact hR.2
  -- no whitespace anywhere, so trim is the identity
  have hball : ('r' :: 'g' :: 'b' :: 'a' :: '(' :: rh :: (rt ++ ',' :: (G ++
      ',' :: (B ++ [',', '0', '.', d1, d2, d3, ')'])))).all
        (fun c => !isWsChar c) = true := by
    simp [List.all_cons, List.all_append, all_not_ws_of_digits hG,
      all_not_ws_of_digits hB, all_not_ws_of_digits hRtd, digit_not_ws rh hrh,
      digit_not_ws d1 hd1, digit_not_ws d2 hd2, digit_not_ws d3 hd3]
    decide
  have htrim : trimChars ('r' :: 'g' :: 'b' :: 'a' :: '(' :: rh :: (rt ++ ',' ::
      (G ++ ',' :: (B ++ [',', '0', '.', d1, d2, d3, ')'])))) =
      'r' :: 'g' :: 'b' :: 'a' :: '(' :: rh :: (rt ++ ',' :: (G ++ ',' ::
        (B ++ [',', '0', '.', d1, d2, d3, ')']))) := by
    refine trimChars_eq_self fun c hc => ?_
    have h1 := all_mem_of_all hball c hc
    simpa using h1
  have hRnc : ∀ c ∈ rh :: rt, c ≠ ',' :=
    fun c hc => digit_char_ne c ',' (hRd c hc) (by decide)
  have hGnc : ∀ c ∈ G, c ≠ ',' :=
    fun c hc => digit_char_ne c ',' (hGd c hc) (by decide)
  have hBnc : ∀ c ∈ B, c ≠ ',' :=
    fun c hc => digit_char_ne c ',' (hBd c hc) (by decide)
  have hAnc : ∀ c ∈ ['0', '.', d1, d2, d3], c ≠ ',' := by
    intro c hc
    have hc2 : c = '0' ∨ c = '.' ∨ c = d1 ∨ c = d2 ∨ c = d3 := by simpa using hc
    rcases hc2 with rfl | rfl | rfl | rfl | rfl
    · decide
    · decide
    · exact digit_char_ne _ ',' hd1 (by decide)
    · exact digit_char_ne _ ',' hd2 (by decide)
    · exact digit_char_ne _ ',' hd3 (by decide)
  unfold Color.parse
  simp only [htrim]
  rw [if_neg (by simp [startsWithChar])]
  rw [if_pos (show ("rgb".toList).isPrefixOf ('r' :: 'g' :: 'b' :: 'a' :: '(' ::
    rh :: (rt ++ ',' :: (G ++ ',' :: (B ++ [',', '0', '.', d1, d2, d3, ')'])))) =
      true from rfl)]
  have hstep1 : trimStartMatchesStr ("rgba".toList) ('r' :: 'g' :: 'b' :: 'a' ::
      '(' :: rh :: (rt ++ ',' :: (G ++ ',' :: (B ++ [',', '0', '.', d1, d2, d3, ')'])))) =
      '(' :: rh :: (rt ++ ',' :: (G ++ ',' :: (B ++ [',', '0', '.', d1, d2, d3, ')']))) := by
    rw [trimStartMatchesStr_step (by decide) (by rfl)]
    exact trimStartMatchesStr_of_no_match (by decide) (by rfl)
  rw [hstep1]
  rw [trimStartMatchesStr_of_no_match (by decide) (by rfl)]
  have hdw : List.dropWhile (fun x => decide (x = '(')) ('(' :: rh :: (rt ++ ',' ::
      (G ++ ',' :: (B ++ [',', '0', '.', d1, d2, d3, ')'])))) =
      rh :: (rt ++ ',' :: (G ++ ',' :: (B ++ [',', '0', '.', d1, d2, d3, ')']))) := by
    simp [List.dropWhile_cons, digit_char_ne rh '(' hrh (by decide)]
  rw [hdw]
  have hb1 : rh :: (rt ++ ',' :: (G ++ ',' :: (B ++ [',', '0', '.', d1, d2, d3, ')']))) =
      (rh :: (rt ++ ',' :: (G ++ ',' :: (B ++ [',', '0', '.', d1, d2, d3])))) ++ [')'] := by
    simp
  have hb2 : (rh :: (rt ++ ',' :: (G ++ ',' :: (B ++ [',', '0', '.', d1, d2, d3])))).reverse =
      d3 :: ((rh :: (rt ++ ',' :: (G ++ ',' :: (B ++ [',', '0', '.', d1, d2])))).reverse) := by
    simp
  have htrimEnd : trimEndMatchesChar ')' (rh :: (rt ++ ',' :: (G ++ ',' ::
      (B ++ [',', '0', '.', d1, d2, d3, ')'])))) =
      rh :: (rt ++ ',' :: (G ++ ',' :: (B ++ [',', '0', '.', d1, d2, d3]))) := by
    rw [hb1]
    exact trimEnd_append hb2 (digit_char_ne d3 ')' hd3 (by decide))
  rw [htrimEnd]
  have hsc : splitOnComma (rh :: (rt ++ ',' :: (G ++ ',' ::
      (B ++ [',', '0', '.', d1, d2, d3])))) =
      [rh :: rt, G, B, ['0', '.', d1, d2, d3]] := by
    have e1 : rh :: (rt ++ ',' :: (G ++ ',' :: (B ++ [',', '0', '.', d1, d2, d3]))) =
        (rh :: rt) ++ ',' :: (G ++ ',' :: (B ++ ',' :: ['0', '.', d1, d2, d3])) := by
      simp
    rw [e1, splitOnComma_append hRnc, splitOnComma_append hGnc,
      splitOnComma_append hBnc, splitOnComma_no_comma hAnc]
  rw [hsc]
  have hm1 : trimChars (rh :: rt) = rh :: rt :=
    trimChars_eq_self (fun c hc => digit_not_ws c (hRd c hc))
  have hm2 : trimChars G = G :=
    trimChars_eq_self (fun c hc => digit_not_ws c (hGd c hc))
  have hm3 : trimChars B = B :=
    trimChars_eq_self (fun c hc => digit_not_ws c (hBd c hc))
  have hm4 : trimChars ['0', '.', d1, d2, d3] = ['0', '.', d1, d2, d3] := by
    refine trimChars_eq_self ?_
    intro c hc
    have hc2 : c = '0' ∨ c = '.' ∨ c = d1 ∨ c = d2 ∨ c = d3 := by simpa using hc
    rcases hc2 with rfl | rfl | rfl | rfl | rfl
    · decide
    · decide
    · exact digit_not_ws _ hd1
    · exact digit_not_ws _ hd2
    · exact digit_not_ws _ hd3
  simp only [List.map_cons, List.map_nil, hm1, hm2, hm3, hm4]
  rw [if_pos (by norm_num)]

/-! ## Claim theorems -/

/-- Claim C4: `Spacing::to_edges` maps a 1-value shorthand to all four
edges, 2 values `v h` to `[v, h, v, h]`, 3 values `t h b` to
`[t, h, b, h]`, 4 values to `[top, right, bottom, left]` literally, and
any other token count to `[0, 0, 0, 0]`; in particular `"10"`,
`"10 20"`, `"10 20 30"` and `"10 20 30 40"` expand as listed. -/
theorem spacing_shorthand_expansion :
    (∀ s : List Char,
      (∀ a, parseFloatTokens s = [a] → (Spacing.multi s).toEdges = [a, a, a, a]) ∧
      (∀ v h, parseFloatTokens s = [v, h] → (Spacing.multi s).toEdges = [v, h, v, h]) ∧
      (∀ t h b, parseFloatTokens s = [t, h, b] → (Spacing.multi s).toEdges = [t, h, b, h]) ∧
      (∀ t r b l, parseFloatTokens s = [t, r, b, l] →
        (Spacing.multi s).toEdges = [t, r, b, l]) ∧
      ((parseFloatTokens s).length ≠ 1 → (parseFloatTokens s).length ≠ 2 →
        (parseFloatTokens s).length ≠ 3 → (parseFloatTokens s).length ≠ 4 →
        (Spacing.multi s).toEdges = [0, 0, 0, 0])) ∧
    (Spacing.multi ("10".toList)).toEdges = [10, 10, 10, 10] ∧
    (Spacing.multi ("10 20".toList)).toEdges = [10, 20, 10, 20] ∧
    (Spacing.multi ("10 20 30".toList)).toEdges = [10, 20, 30, 20] ∧
    (Spacing.multi ("10 20 30 40".toList)).toEdges = [10, 20, 30, 40] := by
  refine ⟨fun s => ⟨?_, ?_, ?_, ?_, ?_⟩, by decide, by decide, by decide, by decide⟩
  · intro a h
    simp only [Spacing.toEdges, h]
  · intro v h hh
    simp only [Spacing.toEdges, hh]
  · intro t h b hh
    simp only [Spacing.toEdges, hh]
  · intro t r b l hh
    simp only [Spacing.toEdges, hh]
  · intro h1 h2 h3 h4
    simp only [Spacing.toEdges]
    rcases hp : parseFloatTokens s with _ | ⟨a, _ | ⟨b, _ | ⟨c, _ | ⟨d, tl⟩⟩⟩⟩ <;>
      simp_all [hp]

/-- Witness for C4 with a hypothesis discharged at a concrete input. -/
theorem spacing_shorthand_expansion_witness :
    (Spacing.multi ("7".toList)).toEdges = [7, 7, 7, 7] :=
  (spacing_shorthand_expansion.1 ("7".toList)).1 7 (by decide)

/-- Claim C5: `BorderRadius::to_corners` maps 1 value to all four corners,
2 values `a b` to `[a, b, a, b]`, 4 values to
`[top-left, top-right, bottom-right, bottom-left]` literally, and every
other token count — including exactly 3 values, unlike `Spacing` — to
`[0, 0, 0, 0]`. -/
theorem border_radius_shorthand_expansion :
    (∀ s : List Char,
      (∀ a, parseFloatTokens s = [a] →
        (BorderRadius.multi s).toCorners = [a, a, a, a]) ∧
      (∀ a b, parseFloatTokens s = [a, b] →
        (BorderRadius.multi s).toCorners = [a, b, a, b]) ∧
      (∀ a b c, parseFloatTokens s = [a, b, c] →
        (BorderRadius.multi s).toCorners = [0, 0, 0, 0]) ∧
      (∀ a b c d, parseFloatTokens s = [a, b, c, d] →
        (BorderRadius.multi s).toCorners = [a, b, c, d]) ∧
      ((parseFloatTokens s).length ≠ 1 → (parseFloatTokens s).length ≠ 2 →
        (parseFloatTokens s).length ≠ 4 →
        (BorderRadius.multi s).toCorners = [0, 0, 0, 0])) ∧
    (BorderRadius.multi ("10 20 30".toList)).toCorners = [0, 0, 0, 0] := by
  refine ⟨fun s => ⟨?_, ?_, ?_, ?_, ?_⟩, by decide⟩
  · intro a h
    simp only [BorderRadius.toCorners, h]
  · intro a b hh
    simp only [BorderRadius.toCorners, hh]
  · intro a b c hh
    simp only [BorderRadius.toCorners, hh]
  · intro a b c d hh
    simp only [BorderRadius.toCorners, hh]
  · intro h1 h2 h4
    simp only [BorderRadius.toCorners]
    rcases hp : parseFloatTokens s with _ | ⟨a, _ | ⟨b, _ | ⟨c, _ | ⟨d, tl⟩⟩⟩⟩ <;>
      simp_all [hp]

/-- Witness for C5 with a hypothesis discharged at a concrete input. -/
theorem border_radius_shorthand_expansion_witness :
    (BorderRadius.multi ("1 2 3".toList)).toCorners = [0, 0, 0, 0] :=
  (border_radius_shorthand_expansion.1 ("1 2 3".toList)).2.2.1 1 2 3 (by decide)

/-- Claim C7 as stated fails on a degenerate input: with a negative
requested max width and empty text, the single produced line is the empty
line, whose estimated width 0 exceeds the limit while not being a single
word (the whitespace split of empty text has no words). -/
theorem wordwrap_line_width_counterexample :
    ∃ l ∈ wordWrap [] 16 (some (-1)),
      ¬(estimateTextWidth l 16 ≤ -1 ∨
        ∃ w ∈ splitWhitespaceChars [], l = w ∧ (-1 : ℚ) < estimateTextWidth l 16) := by
  refine ⟨[], by decide, ?_⟩
  simp [estimateTextWidth, splitWhitespaceChars]

/-- Claim C7 (amended with a non-negative max width): every line produced
by the fallback word wrap has estimated width (character count × 0.55 ×
font size, spaces included) at most the requested max width, except a
line that is a single word of the text whose own estimated width exceeds
the limit; and every line is a space-join of words of the text — words
are never split. -/
theorem wordwrap_line_width_bound (text : List Char) (fs mw : ℚ)
    (hmw : 0 ≤ mw) :
    ∀ l ∈ wordWrap text fs (some mw),
      (estimateTextWidth l fs ≤ mw ∨
        ∃ w ∈ splitWhitespaceChars text, l = w ∧ mw < estimateTextWidth l fs) ∧
      ∃ chunk, (∀ w ∈ chunk, w ∈ splitWhitespaceChars text) ∧ l = spaceJoin chunk := by
  intro l hl
  have h := wordWrapGo_sound fs mw hmw (splitWhitespaceChars text)
    (splitWhitespaceChars text) [] [] 0 (fun _ hw => hw) (by simp) (Or.inl rfl)
    (by simp [estimateTextWidth]) l hl
  refine ⟨?_, h.2⟩
  rcases h.1 with hle | hmem
  · exact Or.inl hle
  · by_cases hle : estimateTextWidth l fs ≤ mw
    · exact Or.inl hle
    · exact Or.inr ⟨l, hmem, rfl, lt_of_not_le hle⟩

/-- Witness for the amended C7 at a concrete wrap. -/
theorem wordwrap_line_width_bound_witness :
    (estimateTextWidth ("hello".toList) 16 ≤ 0 ∨
      ∃ w ∈ splitWhitespaceChars ("hello".toList), "hello".toList = w ∧
        (0 : ℚ) < estimateTextWidth ("hello".toList) 16) ∧
    ∃ chunk, (∀ w ∈ chunk, w ∈ splitWhitespaceChars ("hello".toList)) ∧
      "hello".toList = spaceJoin chunk :=
  wordwrap_line_width_bound ("hello".toList) 16 0 le_rfl ("hello".toList) (by decide)

/-- Claim C2: the command stream produced by the flattener obeys stack
discipline — at every prefix the number of Pop commands (PopClip plus
PopOpacity) never exceeds the number of Push commands (PushClip plus
PushOpacity), and over the full stream the counts are equal, so the
running depth ends at exactly 0. -/
theorem render_stream_stack_discipline (engine : TextLayoutFn) (root : SolvedNode) :
    (∀ pre, pre <+: (buildRenderTree engine root).commands →
      popCount pre ≤ pushCount pre) ∧
    popCount (buildRenderTree engine root).commands =
      pushCount (buildRenderTree engine root).commands := by
  have hb := renderNode_balanced engine root 0 0
  exact ⟨fun pre hp => hb.2 pre hp, hb.1.symm⟩

/-- Witness for C2 at a concrete half-opacity box node. -/
theorem render_stream_stack_discipline_witness :
    popCount [] ≤ pushCount [] ∧
    popCount (buildRenderTree (fun _ _ _ => ⟨0, 0, []⟩)
        (SolvedNode.mk 0 0 10 10
          (some ⟨ElementType.box, ⟨none, 0, none, ⟨0, 0, 0, 0⟩, 1 / 2⟩⟩) [])).commands =
      pushCount (buildRenderTree (fun _ _ _ => ⟨0, 0, []⟩)
        (SolvedNode.mk 0 0 10 10
          (some ⟨ElementType.box, ⟨none, 0, none, ⟨0, 0, 0, 0⟩, 1 / 2⟩⟩) [])).commands :=
  ⟨(render_stream_stack_discipline (fun _ _ _ => ⟨0, 0, []⟩)
      (SolvedNode.mk 0 0 10 10
        (some ⟨ElementType.box, ⟨none, 0, none, ⟨0, 0, 0, 0⟩, 1 / 2⟩⟩) [])).1 []
      (by simp),
    (render_stream_stack_discipline (fun _ _ _ => ⟨0, 0, []⟩)
      (SolvedNode.mk 0 0 10 10
        (some ⟨ElementType.box, ⟨none, 0, none, ⟨0, 0, 0, 0⟩, 1 / 2⟩⟩) [])).2⟩

/-- Claim C3: for every color with alpha strictly between 0 and 255 (and
`u8` channels), `Color::parse` applied to `Color::to_css` succeeds; the
r, g, b channels return exactly and the alpha channel returns within one
`u8` unit (1/255). -/
theorem color_to_css_roundtrip (c : Color) (hr : c.r < 256) (hg : c.g < 256)
    (hb : c.b < 256) (ha0 : 0 < c.a) (ha1 : c.a < 255) :
    ∃ parsed, Color.parse (Color.toCss c) = some parsed ∧
      parsed.r = c.r ∧ parsed.g = c.g ∧ parsed.b = c.b ∧
      parsed.a ≤ c.a + 1 ∧ c.a ≤ parsed.a + 1 := by
  have hne255 : c.a ≠ 255 := by omega
  have hne0 : c.a ≠ 0 := by omega
  have htc : Color.toCss c = ("rgba(".toList) ++ natRepr c.r ++ ',' :: natRepr c.g ++
      ',' :: natRepr c.b ++ ',' :: '0' :: '.' :: padDigits 3 (alphaMilli c.a) ++ [')'] := by
    unfold Color.toCss
    rw [if_neg hne255, if_neg hne0]
  rw [htc, parse_rgba_literal _ _ _ _ (natRepr_spec c.r hr).1
    (natRepr_spec c.r hr).2.1 (natRepr_spec c.g hg).1 (natRepr_spec c.g hg).2.1
    (natRepr_spec c.b hb).1 (natRepr_spec c.b hb).2.1 (alphaMilli_lt c.a ha1)]
  rw [parseRgbParts_eval c.r c.g c.b hr hg hb (alphaMilli c.a)
    (alphaMilli_lt c.a ha1)]
  refine ⟨_, rfl, rfl, rfl, rfl, ?_, ?_⟩
  · exact (alpha_roundtrip_bound c.a ha1 ha0).1
  · exact (alpha_roundtrip_bound c.a ha1 ha0).2

/-- Witness for C3 at a concrete color. -/
theorem color_to_css_roundtrip_witness :
    ∃ parsed, Color.parse (Color.toCss ⟨10, 20, 30, 128⟩) = some parsed ∧
      parsed.r = 10 ∧ parsed.g = 20 ∧ parsed.b = 30 ∧
      parsed.a ≤ 128 + 1 ∧ 128 ≤ parsed.a + 1 :=
  color_to_css_roundtrip ⟨10, 20, 30, 128⟩ (by decide) (by decide) (by decide)
    (by decide) (by decide)

/-- Claim C9: measuring the empty string returns width 0 and height
`font_size × 1.2` for every shaping-engine reply — the text measurement
short-circuits before consulting the engine, so empty text still occupies
one line's height. -/
theorem measure_empty_text (parley : MeasureSize) (fontSize : ℚ)
    (maxWidth : Option ℚ) :
    measure parley [] fontSize maxWidth = ⟨0, fontSize * (6 / 5)⟩ := by
  simp [measure]

/-- Claim C6: for non-empty text, a zero-width-or-zero-height shaping
reply makes `measure` return the analytic `fallback_measure` estimate:
greedy word wrap at average character width `0.55 × font size`, height
`(font size × 1.2) × (number of wrapped lines)`, and single-word text
always occupies exactly its own single line regardless of the limit. -/
theorem measure_zero_area_fallback (parley : MeasureSize) (text : List Char)
    (fontSize : ℚ) (maxWidth : Option ℚ) (hne : text ≠ [])
    (hzero : parley.width = 0 ∨ parley.height = 0) :
    measure parley text fontSize maxWidth =
      fallbackMeasure text fontSize (6 / 5) maxWidth ∧
    (measure parley text fontSize maxWidth).height =
      (fontSize * (6 / 5)) * ((wordWrap text fontSize maxWidth).length : ℚ) ∧
    (∀ w, splitWhitespaceChars text = [w] →
      wordWrap text fontSize maxWidth = [w]) := by
  have hm : measure parley text fontSize maxWidth =
      fallbackMeasure text fontSize (6 / 5) maxWidth := by
    rcases hzero with hz | hz <;>
      simp [measure, List.isEmpty_iff, hne, hz]
  refine ⟨hm, ?_, ?_⟩
  · rw [hm]
    simp [fallbackMeasure]
  · intro w hw
    simp [wordWrap, hw, wordWrapGo]
    rcases w with _ | ⟨c, cs⟩ <;> simp [wordWrapGo]

/-- Witness for C6 at a concrete zero-area shaping reply. -/
theorem measure_zero_area_fallback_witness :
    measure ⟨0, 0⟩ ("hi".toList) 16 (some 1) =
      fallbackMeasure ("hi".toList) 16 (6 / 5) (some 1) ∧
    (measure ⟨0, 0⟩ ("hi".toList) 16 (some 1)).height =
      (16 * (6 / 5)) * ((wordWrap ("hi".toList) 16 (some 1)).length : ℚ) ∧
    (∀ w, splitWhitespaceChars ("hi".toList) = [w] →
      wordWrap ("hi".toList) 16 (some 1) = [w]) :=
  measure_zero_area_fallback ⟨0, 0⟩ ("hi".toList) 16 (some 1) (by decide) (Or.inl rfl)

/-- Claim C8: whenever deserialization of the input fails (malformed JSON,
unknown tag, invalid color, ...), `compile` returns an error of kind
`parse_error` carrying the parser's message, and never returns a result —
no SVG text is produced. -/
theorem compile_invalid_input_parse_error (serdeParse : JsonParseFn)
    (computeLayout : LayoutFn) (engine : TextLayoutFn) (input : List Char)
    (options : CompileOptions) (msg : List Char)
    (h : serdeParse input = .error msg) :
    compile serdeParse computeLayout engine input options =
      .error ⟨msg, "parse_error".toList⟩ ∧
    ∀ result, compile serdeParse computeLayout engine input options ≠
      .ok result := by
  constructor
  · simp [compile, h]
  · intro result
    simp [compile, h]

/-- Witness for C8: the input `"not valid json"` under a parser reply
that rejects it. -/
theorem compile_invalid_input_parse_error_witness :
    compile (fun _ => .error ("expected value".toList)) (fun _ _ => .error [])
        (fun _ _ _ => ⟨0, 0, []⟩) ("not valid json".toList)
        compileOptionsDefault =
      .error ⟨"expected value".toList, "parse_error".toList⟩ ∧
    ∀ result, compile (fun _ => .error ("expected value".toList))
        (fun _ _ => .error []) (fun _ _ _ => ⟨0, 0, []⟩)
        ("not valid json".toList) compileOptionsDefault ≠ .ok result :=
  compile_invalid_input_parse_error (fun _ => .error ("expected value".toList))
    (fun _ _ => .error []) (fun _ _ _ => ⟨0, 0, []⟩) ("not valid json".toList)
    compileOptionsDefault ("expected value".toList) rfl

/-- Claim C1: compilation is deterministic.  The pipeline is a pure
function of the element tree and the options (the external solver and
shaping engine being fixed deterministic collaborators): two invocations
of `compile` or `compile_element` on equal inputs and options produce
equal results — in particular byte-for-byte identical SVG strings and
identical computed width and height. -/
theorem compile_deterministic (serdeParse : JsonParseFn)
    (computeLayout : LayoutFn) (engine : TextLayoutFn)
    (inputA inputB : List Char) (elemA elemB : Element)
    (optsA optsB : CompileOptions) (hin : inputA = inputB)
    (he : elemA = elemB) (ho : optsA = optsB) :
    compile serdeParse computeLayout engine inputA optsA =
      compile serdeParse computeLayout engine inputB optsB ∧
    compileElement computeLayout engine elemA optsA =
      compileElement computeLayout engine elemB optsB ∧
    (∀ rA rB, compileElement computeLayout engine elemA optsA = .ok rA →
      compileElement computeLayout engine elemB optsB = .ok rB →
      rA.svg = rB.svg ∧ rA.width = rB.width ∧ rA.height = rB.height) := by
  subst hin
  subst he
  subst ho
  refine ⟨rfl, rfl, ?_⟩
  intro rA rB hA hB
  rw [hA] at hB
  cases hB
  exact ⟨rfl, rfl, rfl⟩

/-- Witness for C1 at a concrete element, options and collaborators. -/
theorem compile_deterministic_witness :
    compileElement (fun _ _ => .error []) (fun _ _ _ => ⟨0, 0, []⟩)
        (Element.text ("hello".toList)
          ⟨none, none, none, none, none, none, none, none, none, none⟩)
        compileOptionsDefault =
      compileElement (fun _ _ => .error []) (fun _ _ _ => ⟨0, 0, []⟩)
        (Element.text ("hello".toList)
          ⟨none, none, none, none, none, none, none, none, none, none⟩)
        compileOptionsDefault :=
  (compile_deterministic (fun _ => .error []) (fun _ _ => .error [])
    (fun _ _ _ => ⟨0, 0, []⟩) [] []
    (Element.text ("hello".toList)
      ⟨none, none, none, none, none, none, none, none, none, none⟩)
    (Element.text ("hello".toList)
      ⟨none, none, none, none, none, none, none, none, none, none⟩)
    compileOptionsDefault compileOptionsDefault rfl rfl rfl).2.1

end Htvg

